import Mathlib

/-!
Verification development for the robot_io pose/orientation transform library
(`robot_io/utils/utils.py` and `robot_io/cams/camera_manager.py`), modelled
over exact real arithmetic.  Python floats become `ℝ`; scipy's
`Rotation.from_quat / from_euler / from_matrix / as_quat / as_euler('xyz')`
are embedded by their exact mathematical definitions (the scipy 1.5.x
algorithms pinned by the repository's private-module import); fallible calls
(`from_quat` on a zero-norm quaternion) return `Option`.
-/

namespace RobotSpec

open Real

noncomputable section

/-- Real 3-vector, modelling a numpy array of shape `(3,)`. -/
@[ext] structure Vec3 where
  x : ℝ
  y : ℝ
  z : ℝ

instance : Zero Vec3 := ⟨⟨0, 0, 0⟩⟩

instance : Add Vec3 := ⟨fun a b => ⟨a.x + b.x, a.y + b.y, a.z + b.z⟩⟩

instance : Sub Vec3 := ⟨fun a b => ⟨a.x - b.x, a.y - b.y, a.z - b.z⟩⟩

/-- Quaternion stored in scipy's `xyzw` (scalar-last) component order. -/
@[ext] structure Quat where
  x : ℝ
  y : ℝ
  z : ℝ
  w : ℝ

instance : Neg Quat := ⟨fun q => ⟨-q.x, -q.y, -q.z, -q.w⟩⟩

/-- Scalar multiple of a quaternion (componentwise). -/
def Quat.smul (k : ℝ) (q : Quat) : Quat := ⟨k * q.x, k * q.y, k * q.z, k * q.w⟩

/-- Squared Euclidean norm of a quaternion. -/
def Quat.normSq (q : Quat) : ℝ := q.x ^ 2 + q.y ^ 2 + q.z ^ 2 + q.w ^ 2

/-- Hamilton product on `xyzw`-stored quaternions (the composition scipy uses
for chaining rotations: `R(p * q) = R(p) * R(q)`). -/
def Quat.mul (p q : Quat) : Quat :=
  ⟨p.w * q.x + p.x * q.w + p.y * q.z - p.z * q.y,
   p.w * q.y - p.x * q.z + p.y * q.w + p.z * q.x,
   p.w * q.z + p.x * q.y - p.y * q.x + p.z * q.w,
   p.w * q.w - p.x * q.x - p.y * q.y - p.z * q.z⟩

/-- Real 3×3 matrix with explicit entries (row-major `m<row><col>`). -/
@[ext] structure Mat3 where
  m00 : ℝ
  m01 : ℝ
  m02 : ℝ
  m10 : ℝ
  m11 : ℝ
  m12 : ℝ
  m20 : ℝ
  m21 : ℝ
  m22 : ℝ

/-- Identity matrix, `np.eye(3)`. -/
def Mat3.id : Mat3 := ⟨1, 0, 0, 0, 1, 0, 0, 0, 1⟩

/-- Matrix product, numpy `@`. -/
def Mat3.mul (A B : Mat3) : Mat3 :=
  ⟨A.m00 * B.m00 + A.m01 * B.m10 + A.m02 * B.m20,
   A.m00 * B.m01 + A.m01 * B.m11 + A.m02 * B.m21,
   A.m00 * B.m02 + A.m01 * B.m12 + A.m02 * B.m22,
   A.m10 * B.m00 + A.m11 * B.m10 + A.m12 * B.m20,
   A.m10 * B.m01 + A.m11 * B.m11 + A.m12 * B.m21,
   A.m10 * B.m02 + A.m11 * B.m12 + A.m12 * B.m22,
   A.m20 * B.m00 + A.m21 * B.m10 + A.m22 * B.m20,
   A.m20 * B.m01 + A.m21 * B.m11 + A.m22 * B.m21,
   A.m20 * B.m02 + A.m21 * B.m12 + A.m22 * B.m22⟩

instance : Mul Mat3 := ⟨Mat3.mul⟩

/-- Matrix–vector product, numpy `@` on a shape-(3,) array. -/
def Mat3.mulVec (A : Mat3) (v : Vec3) : Vec3 :=
  ⟨A.m00 * v.x + A.m01 * v.y + A.m02 * v.z,
   A.m10 * v.x + A.m11 * v.y + A.m12 * v.z,
   A.m20 * v.x + A.m21 * v.y + A.m22 * v.z⟩

/-- Determinant of a 3×3 matrix. -/
def Mat3.det (A : Mat3) : ℝ :=
  A.m00 * (A.m11 * A.m22 - A.m12 * A.m21)
    - A.m01 * (A.m10 * A.m22 - A.m12 * A.m20)
    + A.m02 * (A.m10 * A.m21 - A.m11 * A.m20)

/-- Exact matrix inverse by the adjugate formula, modelling `np.linalg.inv`
(which computes the true inverse in exact arithmetic). -/
def Mat3.inv (A : Mat3) : Mat3 :=
  let d := A.det
  ⟨(A.m11 * A.m22 - A.m12 * A.m21) / d,
   (A.m02 * A.m21 - A.m01 * A.m22) / d,
   (A.m01 * A.m12 - A.m02 * A.m11) / d,
   (A.m12 * A.m20 - A.m10 * A.m22) / d,
   (A.m00 * A.m22 - A.m02 * A.m20) / d,
   (A.m02 * A.m10 - A.m00 * A.m12) / d,
   (A.m10 * A.m21 - A.m11 * A.m20) / d,
   (A.m01 * A.m20 - A.m00 * A.m21) / d,
   (A.m00 * A.m11 - A.m01 * A.m10) / d⟩

/-- Elementary rotation about the x axis. -/
def Rx (a : ℝ) : Mat3 := ⟨1, 0, 0, 0, cos a, -sin a, 0, sin a, cos a⟩

/-- Elementary rotation about the y axis. -/
def Ry (b : ℝ) : Mat3 := ⟨cos b, 0, sin b, 0, 1, 0, -sin b, 0, cos b⟩

/-- Elementary rotation about the z axis. -/
def Rz (c : ℝ) : Mat3 := ⟨cos c, -sin c, 0, sin c, cos c, 0, 0, 0, 1⟩

/-- Rotation matrix of extrinsic-xyz Euler angles, scipy
`Rotation.from_euler('xyz', e).as_matrix() = Rz(e.z) @ Ry(e.y) @ Rx(e.x)`. -/
def eulerToMat (e : Vec3) : Mat3 := Rz e.z * (Ry e.y * Rx e.x)

/-- Rotation matrix of a (not necessarily unit) quaternion, exactly as scipy
`Rotation.from_quat` (which divides by the norm) followed by `as_matrix`:
the quadratic terms of the standard unit-quaternion matrix divided by the
squared norm `n`. -/
def quatToMatCore (q : Quat) : Mat3 :=
  let n := q.normSq
  ⟨1 - 2 * (q.y ^ 2 + q.z ^ 2) / n,
   2 * (q.x * q.y - q.z * q.w) / n,
   2 * (q.x * q.z + q.y * q.w) / n,
   2 * (q.x * q.y + q.z * q.w) / n,
   1 - 2 * (q.x ^ 2 + q.z ^ 2) / n,
   2 * (q.y * q.z - q.x * q.w) / n,
   2 * (q.x * q.z - q.y * q.w) / n,
   2 * (q.y * q.z + q.x * q.w) / n,
   1 - 2 * (q.x ^ 2 + q.y ^ 2) / n⟩

/-- Two-argument arctangent `atan2 y x`, via the complex argument; range
`(-π, π]`, with `atan2 0 0 = 0` as in numpy. -/
def atan2 (y x : ℝ) : ℝ := Complex.arg ⟨x, y⟩

/-- Euclidean norm of a quaternion. -/
def Quat.norm (q : Quat) : ℝ := Real.sqrt q.normSq

/-- Quaternion divided by its norm, as scipy does on construction. -/
def Quat.normalize (q : Quat) : Quat := Quat.smul (1 / q.norm) q

/-- Unnormalized quaternion of a rotation matrix: scipy `from_matrix`'s
branch formulas, selected by `np.argmax` (first maximum) over
`(m00, m11, m22, trace)`. -/
def asQuatRaw (M : Mat3) : Quat :=
  let tr := M.m00 + M.m11 + M.m22
  if M.m00 ≥ M.m11 ∧ M.m00 ≥ M.m22 ∧ M.m00 ≥ tr then
    ⟨1 - tr + 2 * M.m00, M.m10 + M.m01, M.m20 + M.m02, M.m21 - M.m12⟩
  else if M.m11 ≥ M.m22 ∧ M.m11 ≥ tr then
    ⟨M.m01 + M.m10, 1 - tr + 2 * M.m11, M.m21 + M.m12, M.m02 - M.m20⟩
  else if M.m22 ≥ tr then
    ⟨M.m02 + M.m20, M.m12 + M.m21, 1 - tr + 2 * M.m22, M.m10 - M.m01⟩
  else
    ⟨M.m21 - M.m12, M.m02 - M.m20, M.m10 - M.m01, 1 + tr⟩

/-- scipy `R.from_matrix(M).as_quat()`: the branch formulas of `asQuatRaw`
followed by normalization. -/
def asQuat (M : Mat3) : Quat := (asQuatRaw M).normalize

/-- scipy 1.5 `as_euler('xyz')` (extrinsic xyz) computed from the rotation
matrix: on rotation matrices this is the canonical decomposition
`M = Rz(c) * Ry(b) * Rx(a)` with `b ∈ [-π/2, π/2]` and `a, c ∈ (-π, π]`;
at gimbal lock (`m21 = m22 = 0`, i.e. `m20 = ±1` for a rotation) scipy sets
the first extrinsic angle to zero and the third is then determined. -/
def matToEuler (M : Mat3) : Vec3 :=
  if M.m21 = 0 ∧ M.m22 = 0 then
    ⟨0, arcsin (-M.m20), atan2 (-M.m01) M.m11⟩
  else
    ⟨atan2 M.m21 M.m22, arcsin (-M.m20), atan2 M.m10 M.m00⟩

/-- scipy `R.from_quat` on an xyzw array: raises (`none`) on zero norm,
otherwise normalizes and yields the rotation matrix. -/
def fromQuat (q : Quat) : Option Mat3 :=
  if q.normSq = 0 then none else some (quatToMatCore q)

/-- Embeds `quat_to_euler(quat)` from `utils.py`:
`R.from_quat(quat).as_euler('xyz')`. `from_quat` raises `ValueError` on a
zero-norm quaternion (modelled as `none`); otherwise it silently
normalizes, and scipy 1.5's `as_euler` works from the rotation matrix. -/
def quat_to_euler (q : Quat) : Option Vec3 :=
  if q.normSq = 0 then none else some (matToEuler (quatToMatCore q))

/-- Embeds `euler_to_quat(euler_angles)` from `utils.py`:
`R.from_euler('xyz', e).as_quat()`, the Hamilton product of the elementary
axis quaternions `qz(e.z) * qy(e.y) * qx(e.x)` (extrinsic xyz). -/
def euler_to_quat (e : Vec3) : Quat :=
  Quat.mul ⟨0, 0, sin (e.z / 2), cos (e.z / 2)⟩
    (Quat.mul ⟨0, sin (e.y / 2), 0, cos (e.y / 2)⟩ ⟨sin (e.x / 2), 0, 0, cos (e.x / 2)⟩)

/-- Dynamic orientation argument as the Python code receives it: either an
`np.quaternion` object (wxyz fields) or a numpy array of arbitrary length. -/
inductive PyOrn where
  | npq (w x y z : ℝ)
  | arr (xs : List ℝ)

/-- Embeds `np_quat_to_scipy_quat(quat)` (wxyz object fields to an xyzw
array), applied to the four fields of an `np.quaternion`. -/
def np_quat_to_scipy_quat (w x y z : ℝ) : Quat := ⟨x, y, z, w⟩

/-- Embeds `orn_to_matrix(orn)` from `utils.py`: `mat = np.eye(3)`; an
`np.quaternion` is converted wxyz→xyzw and treated as a quaternion, a
length-4 array is a quaternion xyzw, a length-3 array is Euler xyz, and any
other length leaves the identity matrix. -/
def orn_to_matrix (orn : PyOrn) : Option Mat3 :=
  match orn with
  | .npq w x y z => fromQuat (np_quat_to_scipy_quat w x y z)
  | .arr [x, y, z, w] => fromQuat ⟨x, y, z, w⟩
  | .arr [a, b, c] => some (eulerToMat ⟨a, b, c⟩)
  | .arr _ => some Mat3.id

/-- Real 4×4 matrix with explicit entries (row-major `a<row><col>`). -/
@[ext] structure Mat4 where
  a00 : ℝ
  a01 : ℝ
  a02 : ℝ
  a03 : ℝ
  a10 : ℝ
  a11 : ℝ
  a12 : ℝ
  a13 : ℝ
  a20 : ℝ
  a21 : ℝ
  a22 : ℝ
  a23 : ℝ
  a30 : ℝ
  a31 : ℝ
  a32 : ℝ
  a33 : ℝ

/-- The 4×4 matrix `np.eye(4)` after `mat[:3,:3] = Rm; mat[:3,3] = pos`. -/
def homogeneous (Rm : Mat3) (pos : Vec3) : Mat4 :=
  ⟨Rm.m00, Rm.m01, Rm.m02, pos.x,
   Rm.m10, Rm.m11, Rm.m12, pos.y,
   Rm.m20, Rm.m21, Rm.m22, pos.z,
   0, 0, 0, 1⟩

/-- The upper-left 3×3 block `mat[:3,:3]` of a 4×4 matrix. -/
def Mat4.upperLeft (A : Mat4) : Mat3 :=
  ⟨A.a00, A.a01, A.a02, A.a10, A.a11, A.a12, A.a20, A.a21, A.a22⟩

/-- The translation column `mat[:3,3]` of a 4×4 matrix. -/
def Mat4.lastCol (A : Mat4) : Vec3 := ⟨A.a03, A.a13, A.a23⟩

/-- Embeds `pos_orn_to_matrix(pos, orn)` from `utils.py`: `mat = np.eye(4)`;
the rotation block is dispatched on the orientation's runtime shape exactly
as in `orn_to_matrix`, and `mat[:3,3] = pos` in every case. -/
def pos_orn_to_matrix (pos : Vec3) (orn : PyOrn) : Option Mat4 :=
  match orn with
  | .npq w x y z => (fromQuat (np_quat_to_scipy_quat w x y z)).map fun Rm => homogeneous Rm pos
  | .arr [x, y, z, w] => (fromQuat ⟨x, y, z, w⟩).map fun Rm => homogeneous Rm pos
  | .arr [a, b, c] => some (homogeneous (eulerToMat ⟨a, b, c⟩) pos)
  | .arr _ => some (homogeneous Mat3.id pos)

/-- Embeds `matrix_to_orn(mat)` from `utils.py`:
`R.from_matrix(mat[:3,:3]).as_quat()`. The frame-conversion call sites pass
3×3 rotation products, on which the `[:3,:3]` slice is the matrix itself. -/
def matrix_to_orn (mat : Mat3) : Quat := asQuat mat

/-- Embeds `matrix_to_pos_orn(mat)` from `utils.py`: the translation column
and the quaternion (xyzw) of the rotation block of a 4×4 homogeneous
transform. -/
def matrix_to_pos_orn (mat : Mat4) : Vec3 × Quat :=
  (mat.lastCol, asQuat mat.upperLeft)

/-- View of a 3-vector (e.g. the numpy array returned by `quat_to_euler`)
as a length-3 orientation argument. -/
def Vec3.toArr (v : Vec3) : PyOrn := .arr [v.x, v.y, v.z]

/-- Embeds `to_tcp_frame(rel_action_pos, rel_action_orn, tcp_orn)` from
`utils.py`, line by line; the scipy calls inside are fallible, so the
result is an `Option`. -/
def to_tcp_frame (rel_action_pos : Vec3) (rel_action_orn : PyOrn) (tcp_orn : PyOrn) :
    Option (Vec3 × Vec3) :=
  (orn_to_matrix tcp_orn).bind fun T_world_tcp =>
    (orn_to_matrix rel_action_orn).bind fun R_rel =>
      let T_tcp_world := T_world_tcp.inv
      let pos_tcp_rel := T_tcp_world.mulVec rel_action_pos
      let T_world_tcp_new := R_rel * T_world_tcp
      (quat_to_euler (matrix_to_orn (T_world_tcp.inv * T_world_tcp_new))).map
        fun orn_tcp_rel => (pos_tcp_rel, orn_tcp_rel)

/-- Embeds `to_world_frame(rel_action_pos, rel_action_orn, tcp_orn)` from
`utils.py`, line by line. -/
def to_world_frame (rel_action_pos : Vec3) (rel_action_orn : PyOrn) (tcp_orn : PyOrn) :
    Option (Vec3 × Vec3) :=
  (orn_to_matrix tcp_orn).bind fun T_world_tcp_old =>
    (orn_to_matrix rel_action_orn).bind fun T_tcp_new_tcp_old =>
      let pos_w_rel := T_world_tcp_old.mulVec rel_action_pos
      let T_world_tcp_new := T_world_tcp_old * T_tcp_new_tcp_old.inv
      (quat_to_euler (matrix_to_orn (T_world_tcp_old * T_world_tcp_new.inv))).map
        fun orn_w_rel => (pos_w_rel, orn_w_rel)

/-- Embeds `to_relative(pos_old, orn_old, pos_new, orn_new)` from
`utils.py`: the world-frame deltas re-expressed in the starting tool frame
via `to_tcp_frame`. -/
def to_relative (pos_old : Vec3) (orn_old : PyOrn) (pos_new : Vec3) (orn_new : PyOrn) :
    Option (Vec3 × Vec3) :=
  let rel_pos := pos_new - pos_old
  (orn_to_matrix orn_new).bind fun m_orn_new =>
    (orn_to_matrix orn_old).bind fun m_orn_old =>
      (quat_to_euler (matrix_to_orn (m_orn_new * m_orn_old.inv))).bind fun rel_orn =>
        to_tcp_frame rel_pos rel_orn.toArr orn_old

/-- Camera interface: the two methods `CameraManager.save_calibration`
calls, over an abstract calibration-value type `V`. -/
structure Camera (V : Type) where
  get_extrinsic_calibration : String → V
  get_intrinsics : V

/-- State of `CameraManager` from `robot_io/cams/camera_manager.py`: the
configured cameras (`None` when unused). -/
structure CameraManager (V : Type) where
  gripper_cam : Option (Camera V)
  static_cam : Option (Camera V)

/-- Embeds `CameraManager.save_calibration(robot_name)`: the `camera_info`
dict written to `camera_info.npz`, as an association list in insertion
order. `none` models the `AttributeError` raised when the static branch
dereferences an absent gripper camera: in the source, *both* static entries
call `self.gripper_cam`'s methods, not `self.static_cam`'s. -/
def save_calibration {V : Type} (self : CameraManager V) (robot_name : String) :
    Option (List (String × V)) :=
  let part1 : List (String × V) :=
    match self.gripper_cam with
    | some g =>
        [("gripper_extrinsic_calibration", g.get_extrinsic_calibration robot_name),
         ("gripper_intrinsics", g.get_intrinsics)]
    | none => []
  match self.static_cam with
  | some _ =>
      match self.gripper_cam with
      | some g =>
          some (part1 ++
            [("static_extrinsic_calibration", g.get_extrinsic_calibration robot_name),
             ("static_intrinsics", g.get_intrinsics)])
      | none => none
  | none => some part1

/-- Quaternion conjugate (inverse rotation for a unit quaternion). -/
def Quat.conj (q : Quat) : Quat := ⟨-q.x, -q.y, -q.z, q.w⟩

/-- Rotation matrices in this development: the scipy images of unit
quaternions (every matrix the library feeds to `from_matrix` is one). -/
def IsRot (M : Mat3) : Prop := ∃ u : Quat, u.normSq = 1 ∧ M = quatToMatCore u

/-- Real-number model of Python's float modulo operator `x % y`:
for `y > 0` it returns `x - y * ⌊x / y⌋`, the representative in `[0, y)`. -/
def fmod (x y : ℝ) : ℝ := x - y * ⌊x / y⌋

/-- Embeds `angle_between_angles(a, b)` from `robot_io/utils/utils.py`:
`diff = b - a; return (diff + np.pi) % (2 * np.pi) - np.pi`. -/
def angle_between_angles (a b : ℝ) : ℝ := fmod (b - a + π) (2 * π) - π

lemma fmod_eq_fract (x y : ℝ) (hy : y ≠ 0) : fmod x y = y * Int.fract (x / y) := by
  unfold fmod Int.fract
  field_simp

lemma fmod_nonneg (x y : ℝ) (hy : 0 < y) : 0 ≤ fmod x y := by
  rw [fmod_eq_fract x y (ne_of_gt hy)]
  exact mul_nonneg (le_of_lt hy) (Int.fract_nonneg _)

lemma fmod_lt (x y : ℝ) (hy : 0 < y) : fmod x y < y := by
  rw [fmod_eq_fract x y (ne_of_gt hy)]
  have h1 : y * Int.fract (x / y) < y * 1 := mul_lt_mul_of_pos_left (Int.fract_lt_one _) hy
  linarith

lemma two_pi_pos : (0 : ℝ) < 2 * π := by positivity

/-- The wrapped difference at `(0, π)`: the sum inside the modulo is exactly
`2π`, the floor is `1`, and the result is `-π`. -/
lemma angle_between_angles_zero_pi : angle_between_angles 0 π = -π := by
  unfold angle_between_angles fmod
  have h1 : (π - 0 + π) / (2 * π) = 1 := by
    field_simp
    ring
  rw [h1]
  norm_num
  ring

/-- Wrap of a full turn: `angle_between_angles a (a + 2π) = 0`. -/
lemma angle_between_angles_full_turn (a : ℝ) : angle_between_angles a (a + 2 * π) = 0 := by
  unfold angle_between_angles fmod
  have h1 : (a + 2 * π - a + π) / (2 * π) = 3 / 2 := by
    field_simp
    ring
  rw [h1]
  norm_num

/-- Wrap just past `π`: `angle_between_angles 0 (π + 1/1000) = 1/1000 - π`. -/
lemma angle_between_angles_past_pi :
    angle_between_angles 0 (π + 1 / 1000) = 1 / 1000 - π := by
  unfold angle_between_angles fmod
  have harg : π + 1 / 1000 - 0 + π = 2 * π + 1 / 1000 := by ring
  rw [harg]
  have hfl : ⌊(2 * π + 1 / 1000) / (2 * π)⌋ = 1 := by
    have h2 : (2 * π + 1 / 1000) / (2 * π) = 1 + (1 / 1000) / (2 * π) := by
      field_simp
      ring
    rw [h2]
    rw [Int.floor_eq_iff]
    constructor
    · have hge : (0 : ℝ) ≤ 1 / 1000 / (2 * π) := by positivity
      push_cast
      linarith
    · push_cast
      have hlt : (1 / 1000 : ℝ) / (2 * π) < 1 := by
        rw [div_lt_one two_pi_pos]
        nlinarith [pi_gt_three]
      linarith
  rw [hfl]
  push_cast
  ring

/-- C2, counterexample: the claim puts `angle_between_angles a b` in the
half-open interval `(-π, π]`, but at `a = 0`, `b = π` the code returns
exactly `-π`, which lies outside `(-π, π]`. -/
theorem C2_counterexample :
    angle_between_angles 0 π = -π ∧
    ¬ (-π < angle_between_angles 0 π ∧ angle_between_angles 0 π ≤ π) := by
  refine ⟨angle_between_angles_zero_pi, ?_⟩
  rw [angle_between_angles_zero_pi]
  intro h
  exact lt_irrefl _ h.1

/-- C2, amended: `angle_between_angles a b` equals `(b - a)` shifted by an
integer multiple of `2π` into the half-open interval `[-π, π)` (closed at
`-π`, open at `π`); moreover `angle_between_angles a (a + 2π) = 0` for every
`a`, and `angle_between_angles 0 (π + 1/1000) = 1/1000 - π`, never
`π + 1/1000`. -/
theorem C2_angle_wrap (a b : ℝ) :
    (∃ k : ℤ, angle_between_angles a b = (b - a) - 2 * π * k) ∧
    -π ≤ angle_between_angles a b ∧ angle_between_angles a b < π ∧
    angle_between_angles a (a + 2 * π) = 0 ∧
    angle_between_angles 0 (π + 1 / 1000) = 1 / 1000 - π := by
  refine ⟨⟨⌊(b - a + π) / (2 * π)⌋, ?_⟩, ?_, ?_,
    angle_between_angles_full_turn a, angle_between_angles_past_pi⟩
  · unfold angle_between_angles fmod
    ring
  · have h := fmod_nonneg (b - a + π) (2 * π) two_pi_pos
    unfold angle_between_angles
    linarith
  · have h := fmod_lt (b - a + π) (2 * π) two_pi_pos
    unfold angle_between_angles
    linarith

lemma Mat3.mul_def (A B : Mat3) : A * B = A.mul B := rfl

lemma Mat3.mul_assoc3 (A B C : Mat3) : A * B * C = A * (B * C) := by
  ext <;> simp [Mat3.mul_def, Mat3.mul] <;> ring

lemma Mat3.mul_ident (A : Mat3) : A * Mat3.id = A := by
  ext <;> simp [Mat3.mul_def, Mat3.mul, Mat3.id]

lemma Mat3.ident_mul (A : Mat3) : Mat3.id * A = A := by
  ext <;> simp [Mat3.mul_def, Mat3.mul, Mat3.id]

lemma Mat3.mulVec_mulVec (A B : Mat3) (v : Vec3) :
    (A * B).mulVec v = A.mulVec (B.mulVec v) := by
  ext <;> simp [Mat3.mul_def, Mat3.mul, Mat3.mulVec] <;> ring

lemma Mat3.mulVec_zero (A : Mat3) : A.mulVec 0 = 0 := by
  have h0 : (0 : Vec3) = ⟨0, 0, 0⟩ := rfl
  rw [h0]
  ext <;> simp [Mat3.mulVec]

lemma Mat3.ident_mulVec (v : Vec3) : Mat3.id.mulVec v = v := by
  ext <;> simp [Mat3.mulVec, Mat3.id]

lemma Mat3.det_mul (A B : Mat3) : (A * B).det = A.det * B.det := by
  simp [Mat3.mul_def, Mat3.mul, Mat3.det]
  ring

lemma Mat3.det_ident : Mat3.id.det = 1 := by
  norm_num [Mat3.det, Mat3.id]

lemma Mat3.mul_inv_cancel (A : Mat3) (h : A.det ≠ 0) : A * A.inv = Mat3.id := by
  rw [Mat3.det] at h
  ext <;> simp [Mat3.mul_def, Mat3.mul, Mat3.inv, Mat3.id, Mat3.det] <;>
    field_simp <;> ring

lemma Mat3.inv_mul_cancel (A : Mat3) (h : A.det ≠ 0) : A.inv * A = Mat3.id := by
  rw [Mat3.det] at h
  ext <;> simp [Mat3.mul_def, Mat3.mul, Mat3.inv, Mat3.id, Mat3.det] <;>
    field_simp <;> ring

lemma Mat3.inv_unique (A B : Mat3) (hAB : A * B = Mat3.id) (_hBA : B * A = Mat3.id) :
    A.inv = B := by
  have hd : A.det * B.det = 1 := by rw [← Mat3.det_mul, hAB, Mat3.det_ident]
  have hA : A.det ≠ 0 := left_ne_zero_of_mul_eq_one hd
  calc A.inv = A.inv * Mat3.id := (Mat3.mul_ident _).symm
    _ = A.inv * (A * B) := by rw [hAB]
    _ = A.inv * A * B := (Mat3.mul_assoc3 _ _ _).symm
    _ = Mat3.id * B := by rw [Mat3.inv_mul_cancel A hA]
    _ = B := Mat3.ident_mul B

lemma Quat.normSq_nonneg (q : Quat) : 0 ≤ q.normSq := by
  rw [Quat.normSq]
  positivity

lemma Quat.normSq_mul (p q : Quat) : (p.mul q).normSq = p.normSq * q.normSq := by
  simp [Quat.mul, Quat.normSq]
  ring

lemma quatToMatCore_unit (u : Quat) (hu : u.normSq = 1) :
    quatToMatCore u =
      ⟨1 - 2 * (u.y ^ 2 + u.z ^ 2), 2 * (u.x * u.y - u.z * u.w),
       2 * (u.x * u.z + u.y * u.w), 2 * (u.x * u.y + u.z * u.w),
       1 - 2 * (u.x ^ 2 + u.z ^ 2), 2 * (u.y * u.z - u.x * u.w),
       2 * (u.x * u.z - u.y * u.w), 2 * (u.y * u.z + u.x * u.w),
       1 - 2 * (u.x ^ 2 + u.y ^ 2)⟩ := by
  ext <;> simp [quatToMatCore, hu]

lemma quatToMatCore_unit_homog (u : Quat) (hu : u.normSq = 1) :
    quatToMatCore u =
      ⟨u.w ^ 2 + u.x ^ 2 - u.y ^ 2 - u.z ^ 2, 2 * (u.x * u.y - u.z * u.w),
       2 * (u.x * u.z + u.y * u.w), 2 * (u.x * u.y + u.z * u.w),
       u.w ^ 2 - u.x ^ 2 + u.y ^ 2 - u.z ^ 2, 2 * (u.y * u.z - u.x * u.w),
       2 * (u.x * u.z - u.y * u.w), 2 * (u.y * u.z + u.x * u.w),
       u.w ^ 2 - u.x ^ 2 - u.y ^ 2 + u.z ^ 2⟩ := by
  rw [quatToMatCore_unit u hu]
  rw [Quat.normSq] at hu
  ext <;> simp <;> linarith

lemma quatToMatCore_mul_unit (p q : Quat) (hp : p.normSq = 1) (hq : q.normSq = 1) :
    quatToMatCore (p.mul q) = quatToMatCore p * quatToMatCore q := by
  have hpq : (p.mul q).normSq = 1 := by rw [Quat.normSq_mul, hp, hq]; ring
  rw [quatToMatCore_unit_homog _ hp, quatToMatCore_unit_homog _ hq,
    quatToMatCore_unit_homog _ hpq]
  ext <;> simp [Quat.mul, Mat3.mul_def, Mat3.mul] <;> ring

lemma quatToMatCore_det (q : Quat) (hq : q.normSq ≠ 0) :
    (quatToMatCore q).det = 1 := by
  rw [Quat.normSq] at hq
  simp [quatToMatCore, Mat3.det, Quat.normSq]
  field_simp
  ring

lemma quatToMatCore_neg (q : Quat) : quatToMatCore (-q) = quatToMatCore q := by
  have hneg : -q = ⟨-q.x, -q.y, -q.z, -q.w⟩ := rfl
  rw [hneg]
  have hn : (⟨-q.x, -q.y, -q.z, -q.w⟩ : Quat).normSq = q.normSq := by
    simp [Quat.normSq]
  ext <;> simp [quatToMatCore, hn]

lemma Quat.conj_mul_self (u : Quat) (hu : u.normSq = 1) :
    (u.conj).mul u = ⟨0, 0, 0, 1⟩ := by
  rw [Quat.normSq] at hu
  ext <;> simp [Quat.conj, Quat.mul] <;> linarith

lemma Quat.self_mul_conj (u : Quat) (hu : u.normSq = 1) :
    u.mul u.conj = ⟨0, 0, 0, 1⟩ := by
  rw [Quat.normSq] at hu
  ext <;> simp [Quat.conj, Quat.mul] <;> linarith

lemma Quat.conj_normSq (u : Quat) : u.conj.normSq = u.normSq := by
  simp [Quat.conj, Quat.normSq]

lemma quatToMatCore_id : quatToMatCore ⟨0, 0, 0, 1⟩ = Mat3.id := by
  ext <;> norm_num [quatToMatCore, Quat.normSq, Mat3.id]

lemma quatToMatCore_inv (u : Quat) (hu : u.normSq = 1) :
    (quatToMatCore u).inv = quatToMatCore u.conj := by
  have hc : u.conj.normSq = 1 := by rw [Quat.conj_normSq, hu]
  apply Mat3.inv_unique
  · rw [← quatToMatCore_mul_unit u u.conj hu hc, Quat.self_mul_conj u hu, quatToMatCore_id]
  · rw [← quatToMatCore_mul_unit u.conj u hc hu, Quat.conj_mul_self u hu, quatToMatCore_id]

lemma quatToMatCore_smul (q : Quat) (k : ℝ) (hk : k ≠ 0) (hq : q.normSq ≠ 0) :
    quatToMatCore (Quat.smul k q) = quatToMatCore q := by
  have hs : Quat.smul k q = ⟨k * q.x, k * q.y, k * q.z, k * q.w⟩ := rfl
  have hn : (⟨k * q.x, k * q.y, k * q.z, k * q.w⟩ : Quat).normSq = k ^ 2 * q.normSq := by
    simp [Quat.normSq]
    ring
  have hkq : k ^ 2 * q.normSq ≠ 0 := mul_ne_zero (pow_ne_zero 2 hk) hq
  rw [hs]
  ext <;> simp [quatToMatCore, hn] <;> field_simp <;> ring

lemma normSq_smul_ne_zero (q : Quat) (k : ℝ) (hk : k ≠ 0) (hq : q.normSq ≠ 0) :
    (Quat.smul k q).normSq ≠ 0 := by
  have hn : (Quat.smul k q).normSq = k ^ 2 * q.normSq := by
    simp [Quat.smul, Quat.normSq]
    ring
  rw [hn]
  exact mul_ne_zero (pow_ne_zero 2 hk) hq

lemma axis_x_normSq (a : ℝ) : (⟨sin (a / 2), 0, 0, cos (a / 2)⟩ : Quat).normSq = 1 := by
  simp [Quat.normSq]

lemma axis_y_normSq (b : ℝ) : (⟨0, sin (b / 2), 0, cos (b / 2)⟩ : Quat).normSq = 1 := by
  simp [Quat.normSq]

lemma axis_z_normSq (c : ℝ) : (⟨0, 0, sin (c / 2), cos (c / 2)⟩ : Quat).normSq = 1 := by
  simp [Quat.normSq]

lemma quatToMatCore_axis_x (a : ℝ) :
    quatToMatCore ⟨sin (a / 2), 0, 0, cos (a / 2)⟩ = Rx a := by
  rw [quatToMatCore_unit _ (axis_x_normSq a)]
  have h1 := sin_sq_add_cos_sq (a / 2)
  have hc : cos a = 2 * cos (a / 2) ^ 2 - 1 := by
    rw [← cos_two_mul]
    ring_nf
  have hs : sin a = 2 * sin (a / 2) * cos (a / 2) := by
    rw [← sin_two_mul]
    ring_nf
  ext <;> simp [Rx] <;> nlinarith [h1, hc, hs]

lemma quatToMatCore_axis_y (b : ℝ) :
    quatToMatCore ⟨0, sin (b / 2), 0, cos (b / 2)⟩ = Ry b := by
  rw [quatToMatCore_unit _ (axis_y_normSq b)]
  have h1 := sin_sq_add_cos_sq (b / 2)
  have hc : cos b = 2 * cos (b / 2) ^ 2 - 1 := by
    rw [← cos_two_mul]
    ring_nf
  have hs : sin b = 2 * sin (b / 2) * cos (b / 2) := by
    rw [← sin_two_mul]
    ring_nf
  ext <;> simp [Ry] <;> nlinarith [h1, hc, hs]

lemma quatToMatCore_axis_z (c : ℝ) :
    quatToMatCore ⟨0, 0, sin (c / 2), cos (c / 2)⟩ = Rz c := by
  rw [quatToMatCore_unit _ (axis_z_normSq c)]
  have h1 := sin_sq_add_cos_sq (c / 2)
  have hc : cos c = 2 * cos (c / 2) ^ 2 - 1 := by
    rw [← cos_two_mul]
    ring_nf
  have hs : sin c = 2 * sin (c / 2) * cos (c / 2) := by
    rw [← sin_two_mul]
    ring_nf
  ext <;> simp [Rz] <;> nlinarith [h1, hc, hs]

lemma euler_to_quat_normSq (e : Vec3) : (euler_to_quat e).normSq = 1 := by
  rw [euler_to_quat, Quat.normSq_mul, Quat.normSq_mul, axis_x_normSq, axis_y_normSq,
    axis_z_normSq]
  norm_num

/-- scipy's `from_euler('xyz')` quaternion and its `as_matrix` agree:
the Euler rotation matrix is the matrix of the composed quaternion. -/
lemma eulerToMat_eq_quat (e : Vec3) :
    eulerToMat e = quatToMatCore (euler_to_quat e) := by
  have hyx : ((⟨0, sin (e.y / 2), 0, cos (e.y / 2)⟩ : Quat).mul
      ⟨sin (e.x / 2), 0, 0, cos (e.x / 2)⟩).normSq = 1 := by
    rw [Quat.normSq_mul, axis_x_normSq, axis_y_normSq]
    norm_num
  rw [euler_to_quat,
    quatToMatCore_mul_unit _ _ (axis_z_normSq e.z) hyx,
    quatToMatCore_mul_unit _ _ (axis_y_normSq e.y) (axis_x_normSq e.x),
    quatToMatCore_axis_x, quatToMatCore_axis_y, quatToMatCore_axis_z, eulerToMat]

lemma isRot_quatToMatCore (q : Quat) (hq : q.normSq ≠ 0) : IsRot (quatToMatCore q) := by
  have hpos : 0 < q.normSq := lt_of_le_of_ne (Quat.normSq_nonneg q) (Ne.symm hq)
  have hsq : Real.sqrt q.normSq ≠ 0 := by
    rw [Real.sqrt_ne_zero (Quat.normSq_nonneg q)]
    exact hq
  have hk : (1 : ℝ) / q.norm ≠ 0 := by
    rw [Quat.norm]
    exact one_div_ne_zero hsq
  refine ⟨Quat.smul (1 / q.norm) q, ?_, (quatToMatCore_smul q (1 / q.norm) hk hq).symm⟩
  have hn : (Quat.smul (1 / q.norm) q).normSq = (1 / q.norm) ^ 2 * q.normSq := by
    simp [Quat.smul, Quat.normSq]
    ring
  rw [hn, Quat.norm, div_pow, one_pow, Real.sq_sqrt (Quat.normSq_nonneg q)]
  field_simp

lemma isRot_id : IsRot Mat3.id :=
  ⟨⟨0, 0, 0, 1⟩, by norm_num [Quat.normSq], quatToMatCore_id.symm⟩

lemma isRot_eulerToMat (e : Vec3) : IsRot (eulerToMat e) :=
  ⟨euler_to_quat e, euler_to_quat_normSq e, eulerToMat_eq_quat e⟩

lemma IsRot.mul {M N : Mat3} (hM : IsRot M) (hN : IsRot N) : IsRot (M * N) := by
  obtain ⟨u, hu, rfl⟩ := hM
  obtain ⟨v, hv, rfl⟩ := hN
  exact ⟨u.mul v, by rw [Quat.normSq_mul, hu, hv]; ring,
    (quatToMatCore_mul_unit u v hu hv).symm⟩

lemma IsRot.inv {M : Mat3} (hM : IsRot M) : IsRot M.inv := by
  obtain ⟨u, hu, rfl⟩ := hM
  exact ⟨u.conj, by rw [Quat.conj_normSq, hu], quatToMatCore_inv u hu⟩

lemma IsRot.det_one {M : Mat3} (hM : IsRot M) : M.det = 1 := by
  obtain ⟨u, hu, rfl⟩ := hM
  exact quatToMatCore_det u (by rw [hu]; norm_num)

lemma IsRot.det_ne_zero {M : Mat3} (hM : IsRot M) : M.det ≠ 0 := by
  rw [hM.det_one]
  norm_num

lemma IsRot.mul_inv {M : Mat3} (hM : IsRot M) : M * M.inv = Mat3.id :=
  Mat3.mul_inv_cancel M hM.det_ne_zero

lemma IsRot.inv_mul {M : Mat3} (hM : IsRot M) : M.inv * M = Mat3.id :=
  Mat3.inv_mul_cancel M hM.det_ne_zero

lemma fromQuat_isRot {q : Quat} {M : Mat3} (h : fromQuat q = some M) : IsRot M := by
  rw [fromQuat] at h
  by_cases hq : q.normSq = 0
  · rw [if_pos hq] at h
    exact absurd h (by simp)
  · rw [if_neg hq] at h
    replace h : quatToMatCore q = M := by simpa using h
    rw [← h]
    exact isRot_quatToMatCore q hq

lemma orn_to_matrix_isRot {orn : PyOrn} {M : Mat3} (h : orn_to_matrix orn = some M) :
    IsRot M := by
  match orn with
  | .npq w x y z => exact fromQuat_isRot h
  | .arr [x, y, z, w] => exact fromQuat_isRot h
  | .arr [a, b, c] =>
    replace h : eulerToMat ⟨a, b, c⟩ = M := Option.some_inj.mp h
    rw [← h]
    exact isRot_eulerToMat _
  | .arr [] =>
    replace h : Mat3.id = M := Option.some_inj.mp h
    rw [← h]
    exact isRot_id
  | .arr [_] =>
    replace h : Mat3.id = M := Option.some_inj.mp h
    rw [← h]
    exact isRot_id
  | .arr [_, _] =>
    replace h : Mat3.id = M := Option.some_inj.mp h
    rw [← h]
    exact isRot_id
  | .arr (_ :: _ :: _ :: _ :: _ :: _) =>
    replace h : Mat3.id = M := Option.some_inj.mp h
    rw [← h]
    exact isRot_id

lemma Quat.neg_def (q : Quat) : -q = ⟨-q.x, -q.y, -q.z, -q.w⟩ := rfl

lemma Quat.normSq_neg (q : Quat) : (-q).normSq = q.normSq := by
  rw [Quat.neg_def]
  simp [Quat.normSq]

lemma ne_zero_of_sq_pos {r : ℝ} (h : 0 < r ^ 2) : r ≠ 0 := by
  intro h0
  rw [h0] at h
  norm_num at h

lemma normalize_smul_unit (u : Quat) (hu : u.normSq = 1) (c : ℝ) (hc : c ≠ 0) :
    Quat.normalize (Quat.smul c u) = Quat.smul (c / |c|) u := by
  have habs : |c| ≠ 0 := abs_ne_zero.mpr hc
  have hn : (Quat.smul c u).normSq = c ^ 2 := by
    have h : (Quat.smul c u).normSq = c ^ 2 * u.normSq := by
      simp [Quat.smul, Quat.normSq]
      ring
    rw [h, hu, mul_one]
  rw [Quat.normalize, Quat.norm, hn, Real.sqrt_sq_eq_abs]
  ext <;> simp [Quat.smul] <;> field_simp

lemma normalize_smul_sign (u : Quat) (hu : u.normSq = 1) (c : ℝ) (hc : c ≠ 0) :
    Quat.normalize (Quat.smul c u) = u ∨ Quat.normalize (Quat.smul c u) = -u := by
  rw [normalize_smul_unit u hu c hc]
  rcases lt_or_gt_of_ne hc with h | h
  · right
    rw [abs_of_neg h, Quat.neg_def]
    ext <;> simp [Quat.smul] <;> field_simp
  · left
    rw [abs_of_pos h]
    ext <;> simp [Quat.smul] <;> field_simp

/-- scipy `from_matrix` on the rotation matrix of a unit quaternion `u`
recovers, before normalization, `4c • u` where `c` is the largest-magnitude
component selected by the branch decision — in particular a nonzero
multiple of `u`. -/
lemma asQuatRaw_quatToMatCore (u : Quat) (hu : u.normSq = 1) :
    ∃ c : ℝ, c ≠ 0 ∧ asQuatRaw (quatToMatCore u) = Quat.smul (4 * c) u := by
  have hu' : u.x ^ 2 + u.y ^ 2 + u.z ^ 2 + u.w ^ 2 = 1 := hu
  rw [quatToMatCore_unit_homog u hu, asQuatRaw]
  dsimp only
  split_ifs with h0 h1 h2
  · refine ⟨u.x, ?_, ?_⟩
    · obtain ⟨ha, hb, hc⟩ := h0
      apply ne_zero_of_sq_pos
      nlinarith [sq_nonneg u.y, sq_nonneg u.z, sq_nonneg u.w]
    · ext <;> simp [Quat.smul] <;> linarith [hu']
  · refine ⟨u.y, ?_, ?_⟩
    · obtain ⟨ha, hb⟩ := h1
      apply ne_zero_of_sq_pos
      rcases not_and_or.mp h0 with h | h
      · nlinarith
      rcases not_and_or.mp h with h | h
      · nlinarith
      · nlinarith
    · ext <;> simp [Quat.smul] <;> linarith [hu']
  · refine ⟨u.z, ?_, ?_⟩
    · apply ne_zero_of_sq_pos
      rcases not_and_or.mp h1 with h | h
      · nlinarith
      · nlinarith
    · ext <;> simp [Quat.smul] <;> linarith [hu']
  · refine ⟨u.w, ?_, ?_⟩
    · apply ne_zero_of_sq_pos
      push_neg at h2
      nlinarith [sq_nonneg u.z]
    · ext <;> simp [Quat.smul] <;> linarith [hu']

/-- Quaternion double cover through the matrix round trip: scipy's
`from_matrix(as_matrix(u)).as_quat()` is exactly `u` or `-u`. -/
lemma asQuat_quatToMatCore (u : Quat) (hu : u.normSq = 1) :
    asQuat (quatToMatCore u) = u ∨ asQuat (quatToMatCore u) = -u := by
  obtain ⟨c, hc, hraw⟩ := asQuatRaw_quatToMatCore u hu
  rw [asQuat, hraw]
  exact normalize_smul_sign u hu (4 * c) (mul_ne_zero (by norm_num) hc)

lemma matrix_to_orn_rot {M : Mat3} (hM : IsRot M) :
    ∃ v : Quat, v.normSq = 1 ∧ matrix_to_orn M = v ∧ quatToMatCore v = M := by
  obtain ⟨u, hu, rfl⟩ := hM
  rcases asQuat_quatToMatCore u hu with h | h
  · exact ⟨u, hu, h, rfl⟩
  · refine ⟨-u, ?_, h, quatToMatCore_neg u⟩
    rw [Quat.normSq_neg, hu]

/-- On any rotation matrix the composite
`quat_to_euler(matrix_to_orn(M))` succeeds and equals the matrix-based
Euler extraction. -/
lemma quat_to_euler_matrix_to_orn {M : Mat3} (hM : IsRot M) :
    quat_to_euler (matrix_to_orn M) = some (matToEuler M) := by
  obtain ⟨v, hv, hm, hq⟩ := matrix_to_orn_rot hM
  rw [hm, quat_to_euler, if_neg (by rw [hv]; norm_num), hq]

lemma atan2_cos_sin {y x : ℝ} (h : ¬(x = 0 ∧ y = 0)) :
    cos (atan2 y x) = x / Real.sqrt (x ^ 2 + y ^ 2) ∧
    sin (atan2 y x) = y / Real.sqrt (x ^ 2 + y ^ 2) := by
  have hz : (⟨x, y⟩ : ℂ) ≠ 0 := by
    intro h0
    rw [Complex.ext_iff] at h0
    exact h (by simpa using h0)
  have habs : Complex.abs ⟨x, y⟩ = Real.sqrt (x ^ 2 + y ^ 2) := by
    rw [Complex.abs_apply, Complex.normSq_mk]
    ring_nf
  constructor
  · rw [atan2, Complex.cos_arg hz, habs]
  · rw [atan2, Complex.sin_arg, habs]

lemma eulerToMat_entries (a b c : ℝ) :
    eulerToMat ⟨a, b, c⟩ =
      ⟨cos c * cos b, cos c * sin b * sin a - sin c * cos a,
       cos c * sin b * cos a + sin c * sin a,
       sin c * cos b, sin c * sin b * sin a + cos c * cos a,
       sin c * sin b * cos a - cos c * sin a,
       -sin b, cos b * sin a, cos b * cos a⟩ := by
  have hm : ∀ A B : Mat3, A * B = A.mul B := fun _ _ => rfl
  rw [eulerToMat, hm, hm]
  ext <;> simp [Rx, Ry, Rz, Mat3.mul] <;> ring

set_option maxHeartbeats 1000000 in
lemma euler_reconstruct_nongimbal (M : Mat3)
    (hF1 : M.m20 ^ 2 + M.m21 ^ 2 + M.m22 ^ 2 = 1)
    (hF2 : M.m00 ^ 2 + M.m10 ^ 2 + M.m20 ^ 2 = 1)
    (hF3 : M.m01 * (M.m21 ^ 2 + M.m22 ^ 2) = -(M.m00 * M.m20 * M.m21) - M.m10 * M.m22)
    (hF4 : M.m02 * (M.m21 ^ 2 + M.m22 ^ 2) = -(M.m00 * M.m20 * M.m22) + M.m10 * M.m21)
    (hF5 : M.m11 * (M.m21 ^ 2 + M.m22 ^ 2) = -(M.m10 * M.m20 * M.m21) + M.m00 * M.m22)
    (hF6 : M.m12 * (M.m21 ^ 2 + M.m22 ^ 2) = -(M.m10 * M.m20 * M.m22) - M.m00 * M.m21)
    (hg : ¬(M.m21 = 0 ∧ M.m22 = 0)) :
    eulerToMat (matToEuler M) = M := by
  have hs2pos : 0 < M.m21 ^ 2 + M.m22 ^ 2 := by
    rcases not_and_or.mp hg with h | h
    · nlinarith [pow_two_pos_of_ne_zero h, sq_nonneg M.m22]
    · nlinarith [pow_two_pos_of_ne_zero h, sq_nonneg M.m21]
  set s : ℝ := Real.sqrt (M.m21 ^ 2 + M.m22 ^ 2) with hs
  have hspos : 0 < s := Real.sqrt_pos.mpr hs2pos
  have hsne : s ≠ 0 := ne_of_gt hspos
  have hssq : s ^ 2 = M.m21 ^ 2 + M.m22 ^ 2 := Real.sq_sqrt (le_of_lt hs2pos)
  -- angle a
  have hga : ¬(M.m22 = 0 ∧ M.m21 = 0) := fun h0 => hg ⟨h0.2, h0.1⟩
  obtain ⟨hca, hsa⟩ := atan2_cos_sin hga
  rw [show M.m22 ^ 2 + M.m21 ^ 2 = M.m21 ^ 2 + M.m22 ^ 2 by ring] at hca hsa
  -- angle b
  have hb1 : -(1 : ℝ) ≤ -M.m20 := by nlinarith [sq_nonneg (M.m20 - 1)]
  have hb2 : -M.m20 ≤ 1 := by nlinarith [sq_nonneg (M.m20 + 1)]
  have hsb : sin (arcsin (-M.m20)) = -M.m20 := sin_arcsin hb1 hb2
  have hcb : cos (arcsin (-M.m20)) = s := by
    rw [cos_arcsin, hs]
    congr 1
    linarith [hF1, sq_abs M.m20, sq_nonneg M.m20, neg_neg M.m20, even_two.neg_pow M.m20]
  -- angle c
  have hc00 : M.m00 ^ 2 + M.m10 ^ 2 = M.m21 ^ 2 + M.m22 ^ 2 := by nlinarith
  have hgc : ¬(M.m00 = 0 ∧ M.m10 = 0) := by
    intro h0
    rw [h0.1, h0.2] at hc00
    nlinarith
  obtain ⟨hcc, hsc⟩ := atan2_cos_sin hgc
  rw [show M.m00 ^ 2 + M.m10 ^ 2 = M.m21 ^ 2 + M.m22 ^ 2 from hc00] at hcc hsc
  have h4 : Real.sqrt (M.m21 ^ 2 + M.m22 ^ 2) ^ 4 = (M.m21 ^ 2 + M.m22 ^ 2) ^ 2 := by
    rw [show Real.sqrt (M.m21 ^ 2 + M.m22 ^ 2) ^ 4 =
      (Real.sqrt (M.m21 ^ 2 + M.m22 ^ 2) ^ 2) ^ 2 from by ring,
      Real.sq_sqrt (le_of_lt hs2pos)]
  rw [matToEuler, if_neg hg, eulerToMat_entries, hca, hsa, hsb, hcb, hcc, hsc, ← hs]
  ext <;> dsimp only <;> field_simp <;> ring_nf <;> rw [hs]
  all_goals try rw [h4]
  all_goals try rw [Real.sq_sqrt (le_of_lt hs2pos)]
  all_goals first
    | linarith
    | linear_combination (-(M.m21 ^ 2 + M.m22 ^ 2)) * hF3
    | linear_combination (-(M.m21 ^ 2 + M.m22 ^ 2)) * hF4
    | linear_combination (-(M.m21 ^ 2 + M.m22 ^ 2)) * hF5
    | linear_combination (-(M.m21 ^ 2 + M.m22 ^ 2)) * hF6

set_option maxHeartbeats 1600000 in
lemma euler_reconstruct_gimbal (u : Quat)
    (hu' : u.x ^ 2 + u.y ^ 2 + u.z ^ 2 + u.w ^ 2 = 1)
    (hm21 : 2 * (u.y * u.z + u.x * u.w) = 0)
    (hm22 : u.w ^ 2 - u.x ^ 2 - u.y ^ 2 + u.z ^ 2 = 0) :
    eulerToMat (matToEuler
      ⟨u.w ^ 2 + u.x ^ 2 - u.y ^ 2 - u.z ^ 2, 2 * (u.x * u.y - u.z * u.w),
       2 * (u.x * u.z + u.y * u.w), 2 * (u.x * u.y + u.z * u.w),
       u.w ^ 2 - u.x ^ 2 + u.y ^ 2 - u.z ^ 2, 2 * (u.y * u.z - u.x * u.w),
       2 * (u.x * u.z - u.y * u.w), 2 * (u.y * u.z + u.x * u.w),
       u.w ^ 2 - u.x ^ 2 - u.y ^ 2 + u.z ^ 2⟩) =
      ⟨u.w ^ 2 + u.x ^ 2 - u.y ^ 2 - u.z ^ 2, 2 * (u.x * u.y - u.z * u.w),
       2 * (u.x * u.z + u.y * u.w), 2 * (u.x * u.y + u.z * u.w),
       u.w ^ 2 - u.x ^ 2 + u.y ^ 2 - u.z ^ 2, 2 * (u.y * u.z - u.x * u.w),
       2 * (u.x * u.z - u.y * u.w), 2 * (u.y * u.z + u.x * u.w),
       u.w ^ 2 - u.x ^ 2 - u.y ^ 2 + u.z ^ 2⟩ := by
  rw [matToEuler, if_pos ⟨hm21, hm22⟩]
  dsimp only
  have hone : (u.w ^ 2 - u.x ^ 2 + u.y ^ 2 - u.z ^ 2) ^ 2 +
      (-(2 * (u.x * u.y - u.z * u.w))) ^ 2 = 1 := by
    linear_combination (u.x ^ 2 + u.y ^ 2 + u.z ^ 2 + u.w ^ 2 + 1) * hu'
      - (2 * (u.y * u.z + u.x * u.w)) * hm21
  have hne : ¬(u.w ^ 2 - u.x ^ 2 + u.y ^ 2 - u.z ^ 2 = 0 ∧
      -(2 * (u.x * u.y - u.z * u.w)) = 0) := by
    intro h0
    rw [h0.1, h0.2] at hone
    norm_num at hone
  obtain ⟨hcc, hsc⟩ := atan2_cos_sin hne
  rw [show (u.w ^ 2 - u.x ^ 2 + u.y ^ 2 - u.z ^ 2) ^ 2 +
      (-(2 * (u.x * u.y - u.z * u.w))) ^ 2 = 1 from hone, Real.sqrt_one, div_one]
    at hcc hsc
  have hm20sq : (2 * (u.x * u.z - u.y * u.w)) ^ 2 = 1 := by
    linear_combination (u.x ^ 2 + u.y ^ 2 + u.z ^ 2 + u.w ^ 2 + 1) * hu'
      - (2 * (u.y * u.z + u.x * u.w)) * hm21 - (u.w ^ 2 - u.x ^ 2 - u.y ^ 2 + u.z ^ 2) * hm22
  have hfac : (2 * (u.x * u.z - u.y * u.w) - 1) * (2 * (u.x * u.z - u.y * u.w) + 1) = 0 := by
    linear_combination hm20sq
  rcases mul_eq_zero.mp hfac with h | h
  · -- m20 = 1, second angle -π/2
    have hm20 : 2 * (u.x * u.z - u.y * u.w) = 1 := by linarith
    have hsum : (u.x - u.z) ^ 2 + (u.y + u.w) ^ 2 = 0 := by
      linear_combination hu' - hm20
    have hx : u.x = u.z := by
      have h1 : (u.x - u.z) ^ 2 = 0 := by nlinarith [sq_nonneg (u.y + u.w)]
      have h2 : u.x - u.z = 0 := by
        exact pow_eq_zero_iff (two_ne_zero) |>.mp h1
      linarith
    have hy : u.y = -u.w := by
      have h1 : (u.y + u.w) ^ 2 = 0 := by nlinarith [sq_nonneg (u.x - u.z)]
      have h2 : u.y + u.w = 0 := by
        exact pow_eq_zero_iff (two_ne_zero) |>.mp h1
      linarith
    have hb : arcsin (-(2 * (u.x * u.z - u.y * u.w))) = -(π / 2) := by
      rw [show -(2 * (u.x * u.z - u.y * u.w)) = -1 by linarith, arcsin_neg_one]
    rw [hb, eulerToMat_entries]
    have hzw : u.z ^ 2 + u.w ^ 2 = 1 / 2 := by
      rw [hx, hy] at hu'
      nlinarith [hu']
    ext <;> dsimp only <;>
      simp only [hcc, hsc, cos_zero, sin_zero, Real.cos_neg, Real.sin_neg,
        cos_pi_div_two, sin_pi_div_two] <;>
      (try simp only [hx, hy]) <;>
      first | ring1 | linarith [hzw]
  · -- m20 = -1, second angle π/2
    have hm20 : 2 * (u.x * u.z - u.y * u.w) = -1 := by linarith
    have hsum : (u.x + u.z) ^ 2 + (u.y - u.w) ^ 2 = 0 := by
      linear_combination hu' + hm20
    have hx : u.x = -u.z := by
      have h1 : (u.x + u.z) ^ 2 = 0 := by nlinarith [sq_nonneg (u.y - u.w)]
      have h2 : u.x + u.z = 0 := by
        exact pow_eq_zero_iff (two_ne_zero) |>.mp h1
      linarith
    have hy : u.y = u.w := by
      have h1 : (u.y - u.w) ^ 2 = 0 := by nlinarith [sq_nonneg (u.x + u.z)]
      have h2 : u.y - u.w = 0 := by
        exact pow_eq_zero_iff (two_ne_zero) |>.mp h1
      linarith
    have hb : arcsin (-(2 * (u.x * u.z - u.y * u.w))) = π / 2 := by
      rw [show -(2 * (u.x * u.z - u.y * u.w)) = 1 by linarith, arcsin_one]
    rw [hb, eulerToMat_entries]
    have hzw : u.z ^ 2 + u.w ^ 2 = 1 / 2 := by
      rw [hx, hy] at hu'
      nlinarith [hu']
    ext <;> dsimp only <;>
      simp only [hcc, hsc, cos_zero, sin_zero, Real.cos_neg, Real.sin_neg,
        cos_pi_div_two, sin_pi_div_two] <;>
      (try simp only [hx, hy]) <;>
      first | ring1 | linarith [hzw]

set_option maxHeartbeats 1600000 in
lemma eulerToMat_matToEuler_unit (u : Quat)
    (hu' : u.x ^ 2 + u.y ^ 2 + u.z ^ 2 + u.w ^ 2 = 1) :
    eulerToMat (matToEuler
      (⟨u.w ^ 2 + u.x ^ 2 - u.y ^ 2 - u.z ^ 2, 2 * (u.x * u.y - u.z * u.w),
       2 * (u.x * u.z + u.y * u.w), 2 * (u.x * u.y + u.z * u.w),
       u.w ^ 2 - u.x ^ 2 + u.y ^ 2 - u.z ^ 2, 2 * (u.y * u.z - u.x * u.w),
       2 * (u.x * u.z - u.y * u.w), 2 * (u.y * u.z + u.x * u.w),
       u.w ^ 2 - u.x ^ 2 - u.y ^ 2 + u.z ^ 2⟩ : Mat3)) =
      (⟨u.w ^ 2 + u.x ^ 2 - u.y ^ 2 - u.z ^ 2, 2 * (u.x * u.y - u.z * u.w),
       2 * (u.x * u.z + u.y * u.w), 2 * (u.x * u.y + u.z * u.w),
       u.w ^ 2 - u.x ^ 2 + u.y ^ 2 - u.z ^ 2, 2 * (u.y * u.z - u.x * u.w),
       2 * (u.x * u.z - u.y * u.w), 2 * (u.y * u.z + u.x * u.w),
       u.w ^ 2 - u.x ^ 2 - u.y ^ 2 + u.z ^ 2⟩ : Mat3) := by
  by_cases hg : 2 * (u.y * u.z + u.x * u.w) = 0 ∧
      u.w ^ 2 - u.x ^ 2 - u.y ^ 2 + u.z ^ 2 = 0
  · exact euler_reconstruct_gimbal u hu' hg.1 hg.2
  · apply euler_reconstruct_nongimbal
    · dsimp only
      linear_combination (u.x ^ 2 + u.y ^ 2 + u.z ^ 2 + u.w ^ 2 + 1) * hu'
    · dsimp only
      linear_combination (u.x ^ 2 + u.y ^ 2 + u.z ^ 2 + u.w ^ 2 + 1) * hu'
    · dsimp only
      linear_combination (-2 * u.z * u.w ^ 3 - 2 * u.z ^ 3 * u.w + 2 * u.y ^ 2 * u.z * u.w
        - 2 * u.x * u.y * u.w ^ 2 - 2 * u.x * u.y * u.z ^ 2 + 2 * u.x * u.y ^ 3
        + 2 * u.x ^ 2 * u.z * u.w + 2 * u.x ^ 3 * u.y) * hu'
    · dsimp only
      linear_combination (4 * u.y * u.z ^ 2 * u.w + 4 * u.x * u.z * u.w ^ 2
        + 4 * u.x * u.y ^ 2 * u.z + 4 * u.x ^ 2 * u.y * u.w) * hu'
    · dsimp only
      linear_combination (u.w ^ 4 - u.z ^ 4 - 2 * u.y ^ 2 * u.w ^ 2 + u.y ^ 4
        + 2 * u.x ^ 2 * u.z ^ 2 - u.x ^ 4) * hu'
    · dsimp only
      linear_combination (-2 * u.y * u.z * u.w ^ 2 + 2 * u.y * u.z ^ 3 + 2 * u.y ^ 3 * u.z
        - 2 * u.x * u.w ^ 3 + 2 * u.x * u.z ^ 2 * u.w + 2 * u.x * u.y ^ 2 * u.w
        - 2 * u.x ^ 2 * u.y * u.z - 2 * u.x ^ 3 * u.w) * hu'
    · dsimp only
      exact hg


/-- Euler reconstruction: rebuilding a rotation matrix from scipy's
extrinsic-xyz Euler extraction returns the matrix exactly. -/
lemma eulerToMat_matToEuler {M : Mat3} (hM : IsRot M) :
    eulerToMat (matToEuler M) = M := by
  obtain ⟨u, hu, rfl⟩ := hM
  have hu' : u.x ^ 2 + u.y ^ 2 + u.z ^ 2 + u.w ^ 2 = 1 := hu
  rw [quatToMatCore_unit_homog u hu]
  exact eulerToMat_matToEuler_unit u hu'

lemma Quat.neg_neg2 (q : Quat) : -(-q) = q := by
  rw [Quat.neg_def, Quat.neg_def]
  ext <;> simp

lemma unit_quat_eq_of_matCore_eq {u v : Quat} (hu : u.normSq = 1) (hv : v.normSq = 1)
    (h : quatToMatCore u = quatToMatCore v) : u = v ∨ u = -v := by
  rcases asQuat_quatToMatCore u hu with h1 | h1 <;>
    rcases asQuat_quatToMatCore v hv with h2 | h2 <;> rw [h] at h1
  · left
    rw [← h1, h2]
  · right
    rw [← h1, h2]
  · right
    rw [← Quat.neg_neg2 u, ← h1, h2]
  · left
    rw [← Quat.neg_neg2 u, ← h1, h2, Quat.neg_neg2]

/-- C7: for every unit quaternion `q` (xyzw), the orientation-codec round
trip `euler_to_quat (quat_to_euler q)` succeeds and returns exactly `q` or
`-q` (the quaternion double cover). -/
theorem C7_codec_round_trip (q : Quat) (hq : q.normSq = 1) :
    (quat_to_euler q).map euler_to_quat = some q ∨
    (quat_to_euler q).map euler_to_quat = some (-q) := by
  have hq0 : q.normSq ≠ 0 := by rw [hq]; norm_num
  have hqe : quat_to_euler q = some (matToEuler (quatToMatCore q)) := by
    rw [quat_to_euler, if_neg hq0]
  have hrot : IsRot (quatToMatCore q) := isRot_quatToMatCore q hq0
  have hrec : eulerToMat (matToEuler (quatToMatCore q)) = quatToMatCore q :=
    eulerToMat_matToEuler hrot
  have heq : quatToMatCore (euler_to_quat (matToEuler (quatToMatCore q))) =
      quatToMatCore q := by
    rw [← eulerToMat_eq_quat, hrec]
  rcases unit_quat_eq_of_matCore_eq (euler_to_quat_normSq _) hq heq with h | h
  · left
    rw [hqe, Option.map_some', h]
  · right
    rw [hqe, Option.map_some', h]

/-- Witness for C7 at the identity quaternion. -/
theorem C7_codec_round_trip_witness :
    (quat_to_euler ⟨0, 0, 0, 1⟩).map euler_to_quat = some ⟨0, 0, 0, 1⟩ ∨
    (quat_to_euler ⟨0, 0, 0, 1⟩).map euler_to_quat = some (-(⟨0, 0, 0, 1⟩ : Quat)) :=
  C7_codec_round_trip ⟨0, 0, 0, 1⟩ (by norm_num [Quat.normSq])

lemma upperLeft_homogeneous (Rm : Mat3) (p : Vec3) :
    (homogeneous Rm p).upperLeft = Rm := by
  ext <;> rfl

lemma lastCol_homogeneous (Rm : Mat3) (p : Vec3) :
    (homogeneous Rm p).lastCol = p := by
  ext <;> rfl

/-- C6: composition consistency. Decomposing the homogeneous matrix built
from a position and a well-formed orientation recovers the position exactly
and the orientation as a quaternion xyzw equal, up to quaternion sign, to
the orientation converted to quaternion form — for unit-quaternion input
the quaternion itself, for Euler input `euler_to_quat` of the angles. -/
theorem C6_compose_decompose (p : Vec3) :
    (∀ q : Quat, q.normSq = 1 →
      (pos_orn_to_matrix p (.arr [q.x, q.y, q.z, q.w])).map matrix_to_pos_orn =
          some (p, q) ∨
      (pos_orn_to_matrix p (.arr [q.x, q.y, q.z, q.w])).map matrix_to_pos_orn =
          some (p, -q)) ∧
    (∀ e : Vec3,
      (pos_orn_to_matrix p (.arr [e.x, e.y, e.z])).map matrix_to_pos_orn =
          some (p, euler_to_quat e) ∨
      (pos_orn_to_matrix p (.arr [e.x, e.y, e.z])).map matrix_to_pos_orn =
          some (p, -(euler_to_quat e))) := by
  constructor
  · intro q hq
    have hq0 : q.normSq ≠ 0 := by rw [hq]; norm_num
    have heta : (⟨q.x, q.y, q.z, q.w⟩ : Quat) = q := rfl
    have hmat : pos_orn_to_matrix p (.arr [q.x, q.y, q.z, q.w]) =
        some (homogeneous (quatToMatCore q) p) := by
      simp [pos_orn_to_matrix, fromQuat, heta, if_neg hq0]
    rw [hmat, Option.map_some', matrix_to_pos_orn, upperLeft_homogeneous,
      lastCol_homogeneous]
    rcases asQuat_quatToMatCore q hq with h | h
    · left
      rw [h]
    · right
      rw [h]
  · intro e
    have heta : (⟨e.x, e.y, e.z⟩ : Vec3) = e := rfl
    have hmat : pos_orn_to_matrix p (.arr [e.x, e.y, e.z]) =
        some (homogeneous (eulerToMat e) p) := by
      simp [pos_orn_to_matrix, heta]
    rw [hmat, Option.map_some', matrix_to_pos_orn, upperLeft_homogeneous,
      lastCol_homogeneous, eulerToMat_eq_quat]
    rcases asQuat_quatToMatCore (euler_to_quat e) (euler_to_quat_normSq e) with h | h
    · left
      rw [h]
    · right
      rw [h]

/-- Witness for C6 at `p = (1,2,3)`, the identity quaternion and zero Euler
angles. -/
theorem C6_compose_decompose_witness :
    ((pos_orn_to_matrix ⟨1, 2, 3⟩ (.arr [0, 0, 0, 1])).map matrix_to_pos_orn =
        some (⟨1, 2, 3⟩, (⟨0, 0, 0, 1⟩ : Quat)) ∨
      (pos_orn_to_matrix ⟨1, 2, 3⟩ (.arr [0, 0, 0, 1])).map matrix_to_pos_orn =
        some (⟨1, 2, 3⟩, -(⟨0, 0, 0, 1⟩ : Quat))) ∧
    ((pos_orn_to_matrix ⟨1, 2, 3⟩ (.arr [0, 0, 0])).map matrix_to_pos_orn =
        some (⟨1, 2, 3⟩, euler_to_quat ⟨0, 0, 0⟩) ∨
      (pos_orn_to_matrix ⟨1, 2, 3⟩ (.arr [0, 0, 0])).map matrix_to_pos_orn =
        some (⟨1, 2, 3⟩, -(euler_to_quat ⟨0, 0, 0⟩))) :=
  ⟨(C6_compose_decompose ⟨1, 2, 3⟩).1 ⟨0, 0, 0, 1⟩ (by norm_num [Quat.normSq]),
   (C6_compose_decompose ⟨1, 2, 3⟩).2 ⟨0, 0, 0⟩⟩

lemma atan2_zero_one : atan2 0 1 = 0 := by
  have h : (⟨1, 0⟩ : ℂ) = 1 := by
    apply Complex.ext <;> simp
  rw [atan2, h, Complex.arg_one]

lemma atan2_one_zero : atan2 1 0 = π / 2 := by
  have h : (⟨0, 1⟩ : ℂ) = Complex.I := by
    apply Complex.ext <;> simp
  rw [atan2, h, Complex.arg_I]

lemma matToEuler_id : matToEuler Mat3.id = ⟨0, 0, 0⟩ := by
  rw [matToEuler]
  rw [if_neg (by norm_num [Mat3.id])]
  norm_num [Mat3.id, atan2_zero_one]

lemma quat_to_euler_unit : quat_to_euler ⟨0, 0, 0, 1⟩ = some ⟨0, 0, 0⟩ := by
  rw [quat_to_euler, if_neg (by norm_num [Quat.normSq]), quatToMatCore_id, matToEuler_id]

lemma Vec3.sub_self3 (p : Vec3) : p - p = (⟨0, 0, 0⟩ : Vec3) := by
  have h : p - p = ⟨p.x - p.x, p.y - p.y, p.z - p.z⟩ := rfl
  rw [h]
  ext <;> simp

lemma Mat3.mulVec_zero3 (A : Mat3) : A.mulVec ⟨0, 0, 0⟩ = (⟨0, 0, 0⟩ : Vec3) := by
  ext <;> simp [Mat3.mulVec]

lemma eulerToMat_zero : eulerToMat ⟨0, 0, 0⟩ = Mat3.id := by
  ext <;> simp [eulerToMat, Rx, Ry, Rz, Mat3.mul_def, Mat3.mul, Mat3.id]

lemma orn_to_matrix_toArr (v : Vec3) : orn_to_matrix v.toArr = some (eulerToMat v) := rfl

/-- C5: identity motion. For any position `p` and any orientation argument
`o` accepted by `orn_to_matrix` (any array length, or a nonzero
quaternion), `to_relative p o p o` returns a zero position delta and a zero
orientation delta. -/
theorem C5_identity_motion (p : Vec3) (o : PyOrn) (M : Mat3)
    (h : orn_to_matrix o = some M) :
    to_relative p o p o = some (⟨0, 0, 0⟩, ⟨0, 0, 0⟩) := by
  have hrot := orn_to_matrix_isRot h
  simp only [to_relative, to_tcp_frame, h, orn_to_matrix_toArr, Option.some_bind,
    hrot.mul_inv, hrot.inv_mul, quat_to_euler_matrix_to_orn isRot_id, matToEuler_id,
    eulerToMat_zero, Vec3.sub_self3, Mat3.mulVec_zero3, Mat3.ident_mul,
    Option.map_some']

/-- Witness for C5 at `p = (1,2,3)` and the empty orientation array (whose
rotation is the identity). -/
theorem C5_identity_motion_witness :
    to_relative ⟨1, 2, 3⟩ (.arr []) ⟨1, 2, 3⟩ (.arr []) =
      some (⟨0, 0, 0⟩, ⟨0, 0, 0⟩) :=
  C5_identity_motion ⟨1, 2, 3⟩ (.arr []) Mat3.id rfl

lemma inv_of_mul_rot {A B : Mat3} (hA : IsRot A) (hB : IsRot B) :
    (A * B).inv = B.inv * A.inv := by
  apply Mat3.inv_unique
  · rw [Mat3.mul_assoc3, ← Mat3.mul_assoc3 B B.inv A.inv, hB.mul_inv, Mat3.ident_mul,
      hA.mul_inv]
  · rw [Mat3.mul_assoc3, ← Mat3.mul_assoc3 A.inv A B, hA.inv_mul, Mat3.ident_mul,
      hB.inv_mul]

lemma Mat3.inv_inv_rot {A : Mat3} (hA : IsRot A) : A.inv.inv = A :=
  Mat3.inv_unique A.inv A hA.inv_mul hA.mul_inv

lemma Mat3.inv_ident : Mat3.id.inv = Mat3.id :=
  Mat3.inv_unique Mat3.id Mat3.id (Mat3.ident_mul Mat3.id) (Mat3.ident_mul Mat3.id)

lemma sandwich (T E : Mat3) (hT : T * T.inv = Mat3.id) :
    T * (T.inv * (E * T) * T.inv) = E := by
  rw [← Mat3.mul_assoc3 T (T.inv * (E * T)) T.inv, ← Mat3.mul_assoc3 T T.inv (E * T),
    hT, Mat3.ident_mul, Mat3.mul_assoc3, hT, Mat3.mul_ident]

lemma eulerToMat_two_pi_z : eulerToMat ⟨0, 0, 2 * π⟩ = Mat3.id := by
  ext <;> simp [eulerToMat, Rx, Ry, Rz, Mat3.mul_def, Mat3.mul, Mat3.id,
    Real.cos_two_pi, Real.sin_two_pi]

/-- C1, counterexample: with `tcp_orn` the zero Euler triple (identity
tool rotation) and `rel_orn = (0, 0, 2π)`, the round trip
`to_world_frame(*to_tcp_frame(rel_pos, rel_orn, tcp_orn), tcp_orn)` returns
the Euler angles `(0, 0, 0)`, not `(0, 0, 2π)` — the Euler triple is
canonicalized, so the original pair is not returned (the discrepancy `2π`
is far beyond any ε). -/
theorem C1_counterexample :
    (to_tcp_frame ⟨0, 0, 0⟩ (Vec3.toArr ⟨0, 0, 2 * π⟩) (.arr [0, 0, 0])).bind
        (fun pr => to_world_frame pr.1 pr.2.toArr (.arr [0, 0, 0])) =
      some (⟨0, 0, 0⟩, ⟨0, 0, 0⟩) ∧
    (⟨0, 0, 0⟩ : Vec3) ≠ ⟨0, 0, 2 * π⟩ := by
  constructor
  · have h0 : orn_to_matrix (.arr [0, 0, 0]) = some Mat3.id := by
      rw [show (PyOrn.arr [0, 0, 0]) = Vec3.toArr ⟨0, 0, 0⟩ from rfl,
        orn_to_matrix_toArr, eulerToMat_zero]
    simp only [to_tcp_frame, to_world_frame, h0, orn_to_matrix_toArr, Option.some_bind,
      eulerToMat_two_pi_z, eulerToMat_zero, Mat3.inv_ident, Mat3.ident_mul,
      Mat3.mul_ident, quat_to_euler_matrix_to_orn isRot_id, matToEuler_id,
      Option.map_some', Mat3.mulVec_zero3]
  · intro hcontra
    have hz : (0 : ℝ) = 2 * π := congrArg Vec3.z hcontra
    nlinarith [Real.pi_pos]

/-- C1, amended: the frame round trip recovers the relative position
exactly and the relative orientation as a rotation: the returned Euler
triple `orn_out` satisfies `eulerToMat orn_out = eulerToMat rel_orn` (the
same rotation; the triple itself is canonicalized, as the counterexample
`rel_orn = (0, 0, 2π)` forces). In this sense `to_world_frame` is the
algebraic inverse of `to_tcp_frame`. -/
theorem C1_frame_round_trip (rel_pos rel_orn : Vec3) (t : PyOrn) (T : Mat3)
    (h : orn_to_matrix t = some T) :
    ∃ orn_out : Vec3,
      (to_tcp_frame rel_pos rel_orn.toArr t).bind
          (fun pr => to_world_frame pr.1 pr.2.toArr t) =
        some (rel_pos, orn_out) ∧
      eulerToMat orn_out = eulerToMat rel_orn := by
  have hT := orn_to_matrix_isRot h
  have hE : IsRot (eulerToMat rel_orn) := isRot_eulerToMat rel_orn
  set E := eulerToMat rel_orn with hEdef
  set N := T.inv * (E * T) with hNdef
  have hN : IsRot N := (hT.inv).mul (hE.mul hT)
  refine ⟨matToEuler E, ?_, eulerToMat_matToEuler hE⟩
  have h1 : to_tcp_frame rel_pos rel_orn.toArr t =
      some (T.inv.mulVec rel_pos, matToEuler N) := by
    simp only [to_tcp_frame, h, orn_to_matrix_toArr, Option.some_bind, ← hEdef,
      ← hNdef, quat_to_euler_matrix_to_orn hN, Option.map_some']
  rw [h1, Option.some_bind]
  have hNr : eulerToMat (matToEuler N) = N := eulerToMat_matToEuler hN
  have hpos : T.mulVec (T.inv.mulVec rel_pos) = rel_pos := by
    rw [← Mat3.mulVec_mulVec, hT.mul_inv, Mat3.ident_mulVec]
  have harg : T * (T * N.inv).inv = E := by
    rw [inv_of_mul_rot hT hN.inv, Mat3.inv_inv_rot hN, hNdef]
    exact sandwich T E hT.mul_inv
  simp only [to_world_frame, h, orn_to_matrix_toArr, Option.some_bind, hNr, harg,
    hpos, quat_to_euler_matrix_to_orn hE, Option.map_some']

/-- Witness for C1's amended round-trip theorem at the zero orientation. -/
theorem C1_frame_round_trip_witness :
    ∃ orn_out : Vec3,
      (to_tcp_frame ⟨1, 0, 0⟩ (Vec3.toArr ⟨0, 0, 0⟩) (.arr [])).bind
          (fun pr => to_world_frame pr.1 pr.2.toArr (.arr [])) =
        some (⟨1, 0, 0⟩, orn_out) ∧
      eulerToMat orn_out = eulerToMat ⟨0, 0, 0⟩ :=
  C1_frame_round_trip ⟨1, 0, 0⟩ ⟨0, 0, 0⟩ (.arr []) Mat3.id rfl

lemma z90_quat_normSq : Quat.normSq ⟨0, 0, Real.sqrt 2 / 2, Real.sqrt 2 / 2⟩ = 1 := by
  have h2 : Real.sqrt 2 ^ 2 = 2 := Real.sq_sqrt (by norm_num)
  simp [Quat.normSq]
  nlinarith [h2]

lemma quatToMatCore_z90 :
    quatToMatCore ⟨0, 0, Real.sqrt 2 / 2, Real.sqrt 2 / 2⟩ =
      ⟨0, -1, 0, 1, 0, 0, 0, 0, 1⟩ := by
  have h2 : Real.sqrt 2 ^ 2 = 2 := Real.sq_sqrt (by norm_num)
  rw [quatToMatCore_unit _ z90_quat_normSq]
  ext <;> simp <;> nlinarith [h2]

lemma isRot_z90 : IsRot ⟨0, -1, 0, 1, 0, 0, 0, 0, 1⟩ :=
  ⟨⟨0, 0, Real.sqrt 2 / 2, Real.sqrt 2 / 2⟩, z90_quat_normSq, quatToMatCore_z90.symm⟩

lemma matToEuler_z90 :
    matToEuler ⟨0, -1, 0, 1, 0, 0, 0, 0, 1⟩ = ⟨0, 0, π / 2⟩ := by
  rw [matToEuler, if_neg (by norm_num)]
  ext <;> simp [atan2_zero_one, atan2_one_zero]

lemma eulerToMat_z90 :
    eulerToMat ⟨0, 0, π / 2⟩ = ⟨0, -1, 0, 1, 0, 0, 0, 0, 1⟩ := by
  ext <;> simp [eulerToMat, Rx, Ry, Rz, Mat3.mul_def, Mat3.mul]

/-- C4: the concrete scenario. With `pos_old = (0,0,0)`, `orn_old` the
identity quaternion, `pos_new = (1,0,0)` and `orn_new` the unit quaternion
`(0, 0, √2/2, √2/2)` of a 90° rotation about z, `to_relative` returns the
relative position exactly `(1, 0, 0)` (tool frame = world frame) and the
relative orientation exactly `(0, 0, π/2)` in Euler xyz. -/
theorem C4_concrete_scenario :
    to_relative ⟨0, 0, 0⟩ (.arr [0, 0, 0, 1]) ⟨1, 0, 0⟩
        (.arr [0, 0, Real.sqrt 2 / 2, Real.sqrt 2 / 2]) =
      some (⟨1, 0, 0⟩, ⟨0, 0, π / 2⟩) := by
  have ho : orn_to_matrix (.arr [0, 0, 0, 1]) = some Mat3.id := by
    have h : orn_to_matrix (.arr [0, 0, 0, 1]) = fromQuat ⟨0, 0, 0, 1⟩ := rfl
    rw [h, fromQuat, if_neg (by norm_num [Quat.normSq]), quatToMatCore_id]
  have hn : orn_to_matrix (.arr [0, 0, Real.sqrt 2 / 2, Real.sqrt 2 / 2]) =
      some ⟨0, -1, 0, 1, 0, 0, 0, 0, 1⟩ := by
    have h : orn_to_matrix (.arr [0, 0, Real.sqrt 2 / 2, Real.sqrt 2 / 2]) =
        fromQuat ⟨0, 0, Real.sqrt 2 / 2, Real.sqrt 2 / 2⟩ := rfl
    rw [h, fromQuat, if_neg (by rw [z90_quat_normSq]; norm_num), quatToMatCore_z90]
  have hsub : (⟨1, 0, 0⟩ : Vec3) - ⟨0, 0, 0⟩ = (⟨1, 0, 0⟩ : Vec3) := by
    have h : (⟨1, 0, 0⟩ : Vec3) - ⟨0, 0, 0⟩ = ⟨1 - 0, 0 - 0, 0 - 0⟩ := rfl
    rw [h]
    norm_num
  simp only [to_relative, to_tcp_frame, ho, hn, Option.some_bind, hsub,
    Mat3.inv_ident, Mat3.mul_ident, Mat3.ident_mul, Mat3.ident_mulVec,
    quat_to_euler_matrix_to_orn isRot_z90, matToEuler_z90, orn_to_matrix_toArr,
    eulerToMat_z90, Option.map_some']

/-- C9: with both cameras configured, `save_calibration` builds every entry —
including `static_extrinsic_calibration` and `static_intrinsics` — from the
gripper camera's `get_extrinsic_calibration` and `get_intrinsics`; the
static camera `s` never contributes. -/
theorem C9_static_entries_use_gripper_cam {V : Type} (g s : Camera V) (name : String) :
    save_calibration ⟨some g, some s⟩ name =
      some [("gripper_extrinsic_calibration", g.get_extrinsic_calibration name),
            ("gripper_intrinsics", g.get_intrinsics),
            ("static_extrinsic_calibration", g.get_extrinsic_calibration name),
            ("static_intrinsics", g.get_intrinsics)] := rfl

/-- C10: `orn_to_matrix` is invariant under scaling of a 4-component
quaternion argument by any nonzero `k` (including negative `k`), and the
scaled call raises no error: a non-unit quaternion is silently renormalized
rather than rejected. -/
theorem C10_orn_to_matrix_scale_invariant (q : Quat) (k : ℝ) (hk : k ≠ 0)
    (hq : q.normSq ≠ 0) :
    orn_to_matrix (.arr [k * q.x, k * q.y, k * q.z, k * q.w]) =
      orn_to_matrix (.arr [q.x, q.y, q.z, q.w]) ∧
    orn_to_matrix (.arr [k * q.x, k * q.y, k * q.z, k * q.w]) =
      some (quatToMatCore q) := by
  have hs : (⟨k * q.x, k * q.y, k * q.z, k * q.w⟩ : Quat) = Quat.smul k q := rfl
  have h1 : orn_to_matrix (.arr [k * q.x, k * q.y, k * q.z, k * q.w]) =
      fromQuat (Quat.smul k q) := by
    simp [orn_to_matrix, hs]
  have h2 : orn_to_matrix (.arr [q.x, q.y, q.z, q.w]) = fromQuat q := by
    simp [orn_to_matrix]
  rw [h1, h2, fromQuat, fromQuat, if_neg (normSq_smul_ne_zero q k hk hq), if_neg hq,
    quatToMatCore_smul q k hk hq]
  exact ⟨rfl, rfl⟩

/-- Witness for C10 at `q = (0,0,0,1)`, `k = 2`. -/
theorem C10_orn_to_matrix_scale_invariant_witness :
    orn_to_matrix (.arr [2 * (0:ℝ), 2 * 0, 2 * 0, 2 * 1]) =
      orn_to_matrix (.arr [(0:ℝ), 0, 0, 1]) :=
  (C10_orn_to_matrix_scale_invariant ⟨0, 0, 0, 1⟩ 2 (by norm_num)
    (by norm_num [Quat.normSq])).1

/-- C3, counterexample: the quaternion `(0,0,0,2)` has norm `2` (deviation
from `1` far beyond `1e-3`), yet `quat_to_euler` raises no error: it
silently renormalizes and returns the Euler angles `(0,0,0)`. -/
theorem C3_counterexample :
    Quat.norm ⟨0, 0, 0, 2⟩ = 2 ∧ quat_to_euler ⟨0, 0, 0, 2⟩ = some ⟨0, 0, 0⟩ := by
  constructor
  · rw [Quat.norm]
    norm_num [Quat.normSq]
    rw [show (4 : ℝ) = 2 ^ 2 by norm_num, Real.sqrt_sq (by norm_num)]
  · rw [quat_to_euler, if_neg (by norm_num [Quat.normSq])]
    have hm : quatToMatCore ⟨0, 0, 0, 2⟩ = Mat3.id := by
      ext <;> norm_num [quatToMatCore, Quat.normSq, Mat3.id]
    rw [hm, matToEuler_id]

/-- C3, amended: `quat_to_euler` rejects only a zero-norm quaternion; for
every quaternion of nonzero norm it silently renormalizes — scaling the
input by any nonzero factor leaves the result unchanged and raises no
error, regardless of how far the norm deviates from `1`. -/
theorem C3_quat_to_euler_renormalizes (q : Quat) (k : ℝ) (hk : k ≠ 0)
    (hq : q.normSq ≠ 0) :
    (quat_to_euler (Quat.smul k q)).isSome = true ∧
    quat_to_euler (Quat.smul k q) = quat_to_euler q := by
  rw [quat_to_euler, quat_to_euler, if_neg (normSq_smul_ne_zero q k hk hq), if_neg hq,
    quatToMatCore_smul q k hk hq]
  exact ⟨rfl, rfl⟩

/-- C8: `pos_orn_to_matrix` dispatches on the runtime shape of its
orientation argument — a 4-element array is a quaternion read in xyzw
order, a 3-element array is Euler-xyz angles, an `np.quaternion` object is
read wxyz, and any other arity leaves the identity rotation block — and in
every case the result is the 4×4 homogeneous matrix whose upper-left 3×3
block is exactly `orn_to_matrix`'s rotation, whose last column is `pos`,
and whose bottom row is `(0,0,0,1)`. -/
theorem C8_pos_orn_to_matrix_dispatch (pos : Vec3) :
    (∀ x y z w : ℝ, Quat.normSq ⟨x, y, z, w⟩ ≠ 0 →
      pos_orn_to_matrix pos (.arr [x, y, z, w]) =
        some (homogeneous (quatToMatCore ⟨x, y, z, w⟩) pos)) ∧
    (∀ a b c : ℝ, pos_orn_to_matrix pos (.arr [a, b, c]) =
        some (homogeneous (eulerToMat ⟨a, b, c⟩) pos)) ∧
    (∀ w x y z : ℝ, Quat.normSq ⟨x, y, z, w⟩ ≠ 0 →
      pos_orn_to_matrix pos (.npq w x y z) =
        some (homogeneous (quatToMatCore ⟨x, y, z, w⟩) pos)) ∧
    (∀ xs : List ℝ, xs.length ≠ 3 → xs.length ≠ 4 →
      pos_orn_to_matrix pos (.arr xs) = some (homogeneous Mat3.id pos)) ∧
    (∀ orn M4, pos_orn_to_matrix pos orn = some M4 →
      M4.lastCol = pos ∧ M4.a30 = 0 ∧ M4.a31 = 0 ∧ M4.a32 = 0 ∧ M4.a33 = 1 ∧
      orn_to_matrix orn = some M4.upperLeft) := by
  refine ⟨?_, ?_, ?_, ?_, ?_⟩
  · intro x y z w h
    simp [pos_orn_to_matrix, fromQuat, if_neg h]
  · intro a b c
    rfl
  · intro w x y z h
    simp [pos_orn_to_matrix, np_quat_to_scipy_quat, fromQuat, if_neg h]
  · intro xs h3 h4
    match xs, h3, h4 with
    | [], _, _ => rfl
    | [_], _, _ => rfl
    | [_, _], _, _ => rfl
    | [_, _, _], h3, _ => exact absurd rfl h3
    | [_, _, _, _], _, h4 => exact absurd rfl h4
    | _ :: _ :: _ :: _ :: _ :: _, _, _ => rfl
  · intro orn M4 h
    have hblocks : ∀ Rm : Mat3, (homogeneous Rm pos).lastCol = pos ∧
        (homogeneous Rm pos).a30 = 0 ∧ (homogeneous Rm pos).a31 = 0 ∧
        (homogeneous Rm pos).a32 = 0 ∧ (homogeneous Rm pos).a33 = 1 ∧
        (homogeneous Rm pos).upperLeft = Rm := by
      intro Rm
      refine ⟨?_, rfl, rfl, rfl, rfl, rfl⟩
      ext <;> rfl
    have hfromQ : ∀ q : Quat, (fromQuat q).map (fun Rm => homogeneous Rm pos) = some M4 →
        M4.lastCol = pos ∧ M4.a30 = 0 ∧ M4.a31 = 0 ∧ M4.a32 = 0 ∧ M4.a33 = 1 ∧
        fromQuat q = some M4.upperLeft := by
      intro q hq
      match hfq : fromQuat q with
      | none => rw [hfq] at hq; exact absurd hq (by simp)
      | some Rm =>
        rw [hfq] at hq
        replace hq : homogeneous Rm pos = M4 := by simpa using hq
        obtain ⟨h1, h2, h3, h4, h5, h6⟩ := hblocks Rm
        rw [← hq]
        exact ⟨h1, h2, h3, h4, h5, by rw [h6]⟩
    have hplain : ∀ Rm : Mat3, homogeneous Rm pos = M4 →
        M4.lastCol = pos ∧ M4.a30 = 0 ∧ M4.a31 = 0 ∧ M4.a32 = 0 ∧ M4.a33 = 1 ∧
        some Rm = some M4.upperLeft := by
      intro Rm hq
      obtain ⟨h1, h2, h3, h4, h5, h6⟩ := hblocks Rm
      rw [← hq]
      exact ⟨h1, h2, h3, h4, h5, by rw [h6]⟩
    match orn with
    | .npq w x y z => exact hfromQ (np_quat_to_scipy_quat w x y z) h
    | .arr [x, y, z, w] => exact hfromQ ⟨x, y, z, w⟩ h
    | .arr [a, b, c] => exact hplain (eulerToMat ⟨a, b, c⟩) (Option.some_inj.mp h)
    | .arr [] => exact hplain Mat3.id (Option.some_inj.mp h)
    | .arr [_] => exact hplain Mat3.id (Option.some_inj.mp h)
    | .arr [_, _] => exact hplain Mat3.id (Option.some_inj.mp h)
    | .arr (_ :: _ :: _ :: _ :: _ :: _) => exact hplain Mat3.id (Option.some_inj.mp h)

/-- Witness for C8 at concrete inputs: the identity quaternion and an
empty orientation array. -/
theorem C8_pos_orn_to_matrix_dispatch_witness :
    pos_orn_to_matrix ⟨1, 2, 3⟩ (.arr [0, 0, 0, 1]) =
      some (homogeneous (quatToMatCore ⟨0, 0, 0, 1⟩) ⟨1, 2, 3⟩) ∧
    pos_orn_to_matrix ⟨1, 2, 3⟩ (.arr []) = some (homogeneous Mat3.id ⟨1, 2, 3⟩) :=
  ⟨(C8_pos_orn_to_matrix_dispatch ⟨1, 2, 3⟩).1 0 0 0 1 (by norm_num [Quat.normSq]),
   (C8_pos_orn_to_matrix_dispatch ⟨1, 2, 3⟩).2.2.2.1 [] (by simp) (by simp)⟩

/-- Witness for C3's amended theorem at `q = (0,0,0,1)`, `k = 2`. -/
theorem C3_quat_to_euler_renormalizes_witness :
    quat_to_euler (Quat.smul 2 ⟨0, 0, 0, 1⟩) = quat_to_euler ⟨0, 0, 0, 1⟩ :=
  (C3_quat_to_euler_renormalizes ⟨0, 0, 0, 1⟩ 2 (by norm_num)
    (by norm_num [Quat.normSq])).2

end

end RobotSpec
